import Mathlib

/-!
Shallow embedding of the process inventory and lifecycle-control core of
cosmic-process-killer (src/process.rs), together with theorems checking the
natural-language specification against it.

Modelling conventions:
* Machine integers are Nat (u32 pids, u64 memory); the one place the code
  casts (pid as i32) is modelled explicitly on Int.
* f32 CPU percentages are modelled by F32: either NaN or a finite value
  abstracted as a rational.  partial_cmp on f32 returns None exactly when an
  operand is NaN, which F32.partialCmp reproduces.
* The OS signal-delivery layer (nix::sys::signal::kill) is an oracle
  parameter mapping a raw Int pid and a signal to Ok or an error text.
* Vec::sort_by with a comparator that can panic (unwrap of partial_cmp) is
  modelled by a stable insertion sort into Option, where none models the
  panic.  Rust's sort_by is a stable comparator sort; for a total comparator
  a stable sort's output is unique, so the model agrees with it there.
* Rust strings are Lean Strings; lexicographic Ord on str is the
  lexicographic order on the underlying character list.
* String::to_lowercase applies the Unicode lowercase mapping, fixed data of
  the Rust standard library that lives outside this repository; it is
  supplied to the embedding as an environment parameter (like the OS
  layers), so every theorem about the name sort holds for the library's
  actual mapping in particular.
-/

/-- Error types for process operations (enum ProcessError in process.rs). -/
inductive ProcessError where
  | NotFound : ProcessError
  | PermissionDenied : ProcessError
  | Protected : String → ProcessError
  | SignalFailed : String → ProcessError
  | Unknown : String → ProcessError
deriving DecidableEq, Repr

/-- Result type for process operations (type ProcessResult in process.rs). -/
abbrev ProcessResult (T : Type) := Except ProcessError T

/-- Model of an f32 CPU reading: NaN, or a finite/ordered value abstracted as
a rational.  Only the NaN structure of f32 matters to the code under study. -/
inductive F32 where
  | nan : F32
  | val : ℚ → F32
deriving DecidableEq, Repr

/-- Rust Ord::cmp on a linear order: the compare-by-less-then-equal scheme. -/
def cmpo {α : Type} [LinearOrder α] (a b : α) : Ordering :=
  if a < b then Ordering.lt else if a = b then Ordering.eq else Ordering.gt

/-- Model of f32::partial_cmp: None exactly when an operand is NaN, otherwise
the order of the finite values (comparator argument order preserved). -/
def F32.partialCmp : F32 → F32 → Option Ordering
  | F32.nan, _ => none
  | F32.val _, F32.nan => none
  | F32.val a, F32.val b => some (cmpo a b)

/-- Record of one live process (struct ProcessInfo in process.rs). -/
structure ProcessInfo where
  pid : Nat
  name : String
  cpu_usage : F32
  memory : Nat
  status : String
  is_system : Bool
deriving DecidableEq, Repr

/-- Sort keys (enum SortBy in process.rs). -/
inductive SortBy where
  | Cpu : SortBy
  | Memory : SortBy
  | Pid : SortBy
  | Name : SortBy
deriving DecidableEq, Repr

/-- Fixed system-service name table (array system_services in
is_system_service, process.rs lines 173-180). -/
def system_services : List String :=
  ["systemd", "dbus-daemon", "dbus-broker", "NetworkManager",
   "containerd", "dockerd", "kubelet", "coredns",
   "sshd", "rsyslogd", "cron", "atd",
   "polkitd", "avahi-daemon", "cupsd", "bluetoothd",
   "firewalld", "iptables", "nftables",
   "systemd-resolved", "systemd-logind", "systemd-udevd"]

/-- Fixed critical-process name table (array critical_processes in
is_critical_process, process.rs lines 187-193). -/
def critical_processes : List String :=
  ["init", "systemd", "kthreadd", "migration", "rcu_sched",
   "lru-add-drain", "watchdog", "cpuhp", "netns", "rcu_bh",
   "kasimer", "writeback", "kprobe", "khungtaskd", "oom_reaper",
   "ksmd", "khugepaged", "crypto", "kintegrityd", "kblockd",
   "edac-poller", "devfreq_wq", "watchdogd", "kswapd0"]

/-- Rust str::starts_with on the character-list view of the strings
(case-sensitive byte prefix equals character-list prefix for UTF-8). -/
def strStartsWith (s p : String) : Bool :=
  List.isPrefixOf p.data s.data

/-- Check if a process name matches known system services: prefix match
against the system-service table (fn is_system_service, process.rs). -/
def is_system_service (name : String) : Bool :=
  system_services.any (fun service => strStartsWith name service)

/-- Check if a process is a critical system process that should be protected:
exact membership in the critical-process table (fn is_critical_process,
process.rs). -/
def is_critical_process (name : String) : Bool :=
  critical_processes.contains name

/-- The manager state (struct ProcessManager in process.rs): its sysinfo
System cache, modelled as the process table it currently holds.  A table
entry carries the raw per-process data read from the OS. -/
structure RawProcess where
  pid : Nat
  name : String
  cpu_usage : F32
  memory : Nat
  status : String
deriving DecidableEq, Repr

/-- ProcessManager holds only the System cache (process.rs lines 55-57). -/
structure ProcessManager where
  system : List RawProcess

/-- Construction of one ProcessInfo from one process-table entry, as done in
the closure inside get_processes (process.rs lines 81-93): is_system is
computed as is_system_service || is_critical_process of the name. -/
def mkProcessInfo (r : RawProcess) : ProcessInfo :=
  { pid := r.pid
    name := r.name
    cpu_usage := r.cpu_usage
    memory := r.memory
    status := r.status
    is_system := is_system_service r.name || is_critical_process r.name }

/-- Type of the String::to_lowercase function: the Unicode lowercase mapping
(context-sensitive, possibly length-changing) is fixed data of the Rust
standard library, external to this repository, so the embedding takes it as
an environment parameter exactly like the OS layers. -/
def ToLowercase : Type := String → String

/-- The comparator the source installs for each sort key (the match in
get_processes, process.rs lines 97-102), with panic modelled as none:
Cpu is cpu_usage descending through partial_cmp + unwrap, Memory is memory
descending, Pid ascending, Name ascending on the to_lowercase image of the
names, compared lexicographically on their character lists (byte order of
valid UTF-8 equals character order). -/
def sortComparator (low : ToLowercase) (sort_by : SortBy) (a b : ProcessInfo) :
    Option Ordering :=
  match sort_by with
  | SortBy.Cpu => F32.partialCmp b.cpu_usage a.cpu_usage
  | SortBy.Memory => some (cmpo b.memory a.memory)
  | SortBy.Pid => some (cmpo a.pid b.pid)
  | SortBy.Name => some (cmpo (low a.name).data (low b.name).data)

/-- Stable insertion of x into l under a partial comparator: x passes over y
while the comparator answers gt, and a none answer (an unwrap panic in the
source) aborts the whole sort. -/
def insertM {α : Type} (cmp : α → α → Option Ordering) (x : α) : List α → Option (List α)
  | [] => some [x]
  | y :: ys =>
    match cmp x y with
    | none => none
    | some Ordering.gt =>
      match insertM cmp x ys with
      | none => none
      | some r => some (y :: r)
    | some Ordering.lt => some (x :: y :: ys)
    | some Ordering.eq => some (x :: y :: ys)

/-- Stable sort under a partial comparator, none modelling a comparator
panic.  Models Vec::sort_by: both are stable, and stable sorts agree on
every total comparator. -/
def sortByM {α : Type} (cmp : α → α → Option Ordering) : List α → Option (List α)
  | [] => some []
  | x :: xs =>
    match sortByM cmp xs with
    | none => none
    | some r => insertM cmp x r

/-- Model of ProcessManager::refresh (process.rs lines 66-72): the System
cache is replaced by a full fresh read of the OS process table; the freshly
read table is supplied as the osTable argument. -/
def refresh (self : ProcessManager) (osTable : List RawProcess) : ProcessManager :=
  { system := osTable }

/-- Model of ProcessManager::get_processes (process.rs lines 74-105):
refresh, build one ProcessInfo per table entry, then sort by the selected
comparator.  The value none models the comparator panic (unwrap of
partial_cmp on NaN); a real call that does not panic returns some list. -/
def get_processes (self : ProcessManager) (osTable : List RawProcess)
    (low : ToLowercase) (sort_by : SortBy) : Option (List ProcessInfo) :=
  sortByM (sortComparator low sort_by) (((refresh self osTable).system).map mkProcessInfo)

/-- Model of ProcessManager::can_kill_process (process.rs lines 137-144):
refuse with Protected(name) exactly on the critical-process match; the
receiver is an immutable borrow and is not consulted. -/
def can_kill_process (self : ProcessManager) (process : ProcessInfo) : ProcessResult Unit :=
  if is_critical_process process.name then
    Except.error (ProcessError.Protected process.name)
  else
    Except.ok ()

/-- POSIX signal kinds the code sends (nix::sys::signal::Signal). -/
inductive Signal where
  | SIGTERM : Signal
  | SIGKILL : Signal
deriving DecidableEq, Repr

/-- The OS signal-delivery layer (nix signal::kill): given a raw i32 pid and
a signal kind, the OS accepts or rejects with an error text. -/
def OsSignal : Type := Int → Signal → Except String Unit

/-- The cast (pid as i32) from process.rs lines 147 and 156: two's-complement
reinterpretation of a u32 value as an i32. -/
def u32_as_i32 (pid : Nat) : Int :=
  if pid < 2 ^ 31 then (pid : Int) else (pid : Int) - 2 ^ 32

/-- Model of ProcessManager::kill_process (process.rs lines 146-153): send
SIGTERM to the cast pid, mapping an OS rejection to SignalFailed with the OS
error text; no policy check, no use of the receiver. -/
def kill_process (self : ProcessManager) (os : OsSignal) (pid : Nat) : ProcessResult Unit :=
  match os (u32_as_i32 pid) Signal.SIGTERM with
  | Except.error e => Except.error (ProcessError.SignalFailed e)
  | Except.ok _ => Except.ok ()

/-- Model of ProcessManager::force_kill_process (process.rs lines 155-162):
identical to kill_process but sending SIGKILL. -/
def force_kill_process (self : ProcessManager) (os : OsSignal) (pid : Nat) : ProcessResult Unit :=
  match os (u32_as_i32 pid) Signal.SIGKILL with
  | Except.error e => Except.error (ProcessError.SignalFailed e)
  | Except.ok _ => Except.ok ()

/-! Helper lemmas about the comparator scheme and the sort model. -/

theorem cmpo_ne_gt {α : Type} [LinearOrder α] (a b : α) :
    cmpo a b ≠ Ordering.gt ↔ a ≤ b := by
  unfold cmpo
  split_ifs with h1 h2
  · simp [h1.le]
  · simp [h2.le]
  · have h : b < a := lt_of_le_of_ne (le_of_not_lt h1) (fun h => h2 h.symm)
    simp [not_le.mpr h]

theorem cmpo_eq_gt {α : Type} [LinearOrder α] (a b : α) :
    cmpo a b = Ordering.gt ↔ b < a := by
  constructor
  · intro h
    by_contra hc
    exact ((cmpo_ne_gt a b).mpr (not_lt.mp hc)) h
  · intro h
    by_contra hc
    exact absurd ((cmpo_ne_gt a b).mp hc) (not_le.mpr h)

theorem insertM_perm {α : Type} (cmp : α → α → Option Ordering) :
    ∀ (x : α) (l r : List α), insertM cmp x l = some r → List.Perm r (x :: l) := by
  intro x l
  induction l with
  | nil =>
    intro r h
    simp [insertM] at h
    simp [← h]
  | cons y ys ih =>
    intro r h
    unfold insertM at h
    cases hc : cmp x y with
    | none => simp [hc] at h
    | some o =>
      cases o with
      | lt =>
        simp [hc] at h
        simp [← h]
      | eq =>
        simp [hc] at h
        simp [← h]
      | gt =>
        simp [hc] at h
        cases hr : insertM cmp x ys with
        | none => simp [hr] at h
        | some r0 =>
          simp [hr] at h
          have hp := ih r0 hr
          rw [← h]
          exact List.Perm.trans (List.Perm.cons y hp) (List.Perm.swap x y ys)

theorem sortByM_perm {α : Type} (cmp : α → α → Option Ordering) :
    ∀ (l r : List α), sortByM cmp l = some r → List.Perm r l := by
  intro l
  induction l with
  | nil =>
    intro r h
    simp [sortByM] at h
    simp [← h]
  | cons x xs ih =>
    intro r h
    unfold sortByM at h
    cases hs : sortByM cmp xs with
    | none => simp [hs] at h
    | some r0 =>
      simp [hs] at h
      have h1 := insertM_perm cmp x r0 r h
      exact h1.trans (List.Perm.cons x (ih r0 hs))

theorem insertM_isSome {α : Type} (cmp : α → α → Option Ordering) :
    ∀ (x : α) (l : List α), (∀ y ∈ l, (cmp x y).isSome) → (insertM cmp x l).isSome := by
  intro x l
  induction l with
  | nil =>
    intro _
    simp [insertM]
  | cons y ys ih =>
    intro hmem
    have hy : (cmp x y).isSome := hmem y (List.mem_cons_self y ys)
    unfold insertM
    cases hc : cmp x y with
    | none => rw [hc] at hy; simp at hy
    | some o =>
      cases o with
      | lt => simp
      | eq => simp
      | gt =>
        have hys : (insertM cmp x ys).isSome :=
          ih (fun z hz => hmem z (List.mem_cons_of_mem y hz))
        cases hr : insertM cmp x ys with
        | none => rw [hr] at hys; simp at hys
        | some r0 => simp

theorem sortByM_isSome {α : Type} (cmp : α → α → Option Ordering) :
    ∀ (l : List α), (∀ a ∈ l, ∀ b ∈ l, (cmp a b).isSome) → (sortByM cmp l).isSome := by
  intro l
  induction l with
  | nil =>
    intro _
    simp [sortByM]
  | cons x xs ih =>
    intro hall
    have hxs : (sortByM cmp xs).isSome :=
      ih (fun a ha b hb =>
        hall a (List.mem_cons_of_mem x ha) b (List.mem_cons_of_mem x hb))
    unfold sortByM
    cases hs : sortByM cmp xs with
    | none => rw [hs] at hxs; simp at hxs
    | some r0 =>
      have hperm := sortByM_perm cmp xs r0 hs
      exact insertM_isSome cmp x r0 (fun y hy =>
        hall x (List.mem_cons_self x xs) y
          (List.mem_cons_of_mem x (hperm.mem_iff.mp hy)))

theorem insertM_pairwise {α : Type} (cmp : α → α → Option Ordering)
    (htotal : ∀ a b, cmp a b = some Ordering.gt → cmp b a ≠ some Ordering.gt)
    (htrans : ∀ a b c, cmp a b ≠ some Ordering.gt → cmp b c ≠ some Ordering.gt →
      cmp a c ≠ some Ordering.gt) :
    ∀ (x : α) (l r : List α), insertM cmp x l = some r →
      l.Pairwise (fun a b => cmp a b ≠ some Ordering.gt) →
      r.Pairwise (fun a b => cmp a b ≠ some Ordering.gt) := by
  intro x l
  induction l with
  | nil =>
    intro r h _
    simp [insertM] at h
    simp [← h]
  | cons y ys ih =>
    intro r h hpw
    rw [List.pairwise_cons] at hpw
    unfold insertM at h
    cases hc : cmp x y with
    | none => simp [hc] at h
    | some o =>
      cases o with
      | lt =>
        simp [hc] at h
        rw [← h, List.pairwise_cons]
        constructor
        · intro z hz
          rcases List.mem_cons.mp hz with hz1 | hz2
          · rw [hz1, hc]; simp
          · exact htrans x y z (by rw [hc]; simp) (hpw.1 z hz2)
        · exact List.pairwise_cons.mpr hpw
      | eq =>
        simp [hc] at h
        rw [← h, List.pairwise_cons]
        constructor
        · intro z hz
          rcases List.mem_cons.mp hz with hz1 | hz2
          · rw [hz1, hc]; simp
          · exact htrans x y z (by rw [hc]; simp) (hpw.1 z hz2)
        · exact List.pairwise_cons.mpr hpw
      | gt =>
        simp [hc] at h
        cases hr : insertM cmp x ys with
        | none => simp [hr] at h
        | some r0 =>
          simp [hr] at h
          have hperm := insertM_perm cmp x ys r0 hr
          rw [← h, List.pairwise_cons]
          constructor
          · intro z hz
            rcases List.mem_cons.mp (hperm.mem_iff.mp hz) with hz1 | hz2
            · rw [hz1]; exact htotal x y hc
            · exact hpw.1 z hz2
          · exact ih r0 hr hpw.2

theorem sortByM_pairwise {α : Type} (cmp : α → α → Option Ordering)
    (htotal : ∀ a b, cmp a b = some Ordering.gt → cmp b a ≠ some Ordering.gt)
    (htrans : ∀ a b c, cmp a b ≠ some Ordering.gt → cmp b c ≠ some Ordering.gt →
      cmp a c ≠ some Ordering.gt) :
    ∀ (l r : List α), sortByM cmp l = some r →
      r.Pairwise (fun a b => cmp a b ≠ some Ordering.gt) := by
  intro l
  induction l with
  | nil =>
    intro r h
    simp [sortByM] at h
    simp [h]
  | cons x xs ih =>
    intro r h
    unfold sortByM at h
    cases hs : sortByM cmp xs with
    | none => simp [hs] at h
    | some r0 =>
      simp [hs] at h
      exact insertM_pairwise cmp htotal htrans x r0 r h (ih r0 hs)

/-! Concrete fixtures used by witnesses and counterexamples. -/

/-- An empty manager, standing for an arbitrary manager state. -/
def mgr0 : ProcessManager := { system := [] }

/-- An OS signal layer that accepts every signal. -/
def osAccept : OsSignal := fun _ _ => Except.ok ()

/-- An OS signal layer that rejects every signal for insufficient privilege,
reporting the EPERM error text nix produces. -/
def osEperm : OsSignal := fun _ _ => Except.error "EPERM: Operation not permitted"

/-- A test double recording which signal kind the caller requested. -/
def osProbe : OsSignal := fun _ s =>
  Except.error (match s with
    | Signal.SIGTERM => "SIGTERM"
    | Signal.SIGKILL => "SIGKILL")

/-- An OS signal layer that rejects exactly the signals addressed to a
negative raw pid. -/
def osNonneg : OsSignal := fun q _ =>
  if q < 0 then Except.error "negative pid" else Except.ok ()

/-- A three-entry process table exercising the sorts. -/
def tblEx : List RawProcess :=
  [{ pid := 30, name := "Zeta", cpu_usage := F32.val 1, memory := 5, status := "Run" },
   { pid := 4, name := "delta", cpu_usage := F32.val 2, memory := 9, status := "Run" },
   { pid := 17, name := "Beta", cpu_usage := F32.val 3, memory := 2, status := "Run" }]

/-- A process table whose first entry carries a NaN CPU reading. -/
def nanTbl : List RawProcess :=
  [{ pid := 1, name := "a", cpu_usage := F32.nan, memory := 0, status := "Run" },
   { pid := 2, name := "b", cpu_usage := F32.val 1, memory := 0, status := "Run" }]

/-- The ASCII fragment of the Unicode lowercase mapping: a concrete
instantiation of ToLowercase used by witnesses, whose fixture names are
ASCII, where the library mapping and this fragment agree. -/
def asciiToLower : ToLowercase := fun s => String.mk (s.data.map Char.toLower)

/-! Claim theorems. -/

/-- Claim C1: can_kill_process answers Protected(name) exactly when the
record's name is one of the fixed critical-process entries, answers Ok for
every other name, ignores the is_system flag, and in particular answers
Protected("init") on a record named "init". -/
theorem can_kill_protected_iff_critical (m : ProcessManager) (p : ProcessInfo) :
    (can_kill_process m p = Except.error (ProcessError.Protected p.name) ↔
      p.name ∈ critical_processes) ∧
    (p.name ∉ critical_processes → can_kill_process m p = Except.ok ()) ∧
    (∀ b : Bool, can_kill_process m { p with is_system := b } = can_kill_process m p) ∧
    (p.name = "init" →
      can_kill_process m p = Except.error (ProcessError.Protected "init")) := by
  have hiff : can_kill_process m p = Except.error (ProcessError.Protected p.name) ↔
      p.name ∈ critical_processes := by
    unfold can_kill_process is_critical_process
    by_cases hm : p.name ∈ critical_processes
    · simp [hm]
    · have hc : critical_processes.contains p.name = false := by simpa using hm
      simp [hc, hm]
  refine ⟨hiff, ?_, ?_, ?_⟩
  · intro hn
    unfold can_kill_process is_critical_process
    have hc : critical_processes.contains p.name = false := by simpa using hn
    simp [hc]
    exact hn
  · intro b
    rfl
  · intro hn
    rw [hiff.mpr (by rw [hn]; decide), hn]

/-- Witness for C1: the theorem applied to a concrete record named "init". -/
theorem can_kill_protected_iff_critical_witness :
    can_kill_process mgr0
        { pid := 1, name := "init", cpu_usage := F32.val 0, memory := 0,
          status := "Run", is_system := true } =
      Except.error (ProcessError.Protected "init") :=
  (can_kill_protected_iff_critical mgr0 _).2.2.2 rfl

/-- Claim C10: can_kill_process is a pure function of the record's name: its
answer does not depend on the manager state nor on any other field of the
record, so two calls on the same record always agree. -/
theorem can_kill_pure_function_of_name (m m' : ProcessManager) (p q : ProcessInfo)
    (h : p.name = q.name) :
    can_kill_process m p = can_kill_process m' q := by
  unfold can_kill_process
  rw [h]

/-- Witness for C10: records agreeing only on the name, against different
manager states, get the same answer. -/
theorem can_kill_pure_function_of_name_witness :
    can_kill_process mgr0
        { pid := 1, name := "bash", cpu_usage := F32.val 1, memory := 2,
          status := "Run", is_system := false } =
      can_kill_process { system := tblEx }
        { pid := 9, name := "bash", cpu_usage := F32.nan, memory := 7,
          status := "Sleep", is_system := true } :=
  can_kill_pure_function_of_name mgr0 { system := tblEx } _ _ rfl

/-- Claim C5: the is_system flag of a built record is true exactly when the
name starts with a system-service table entry (case-sensitive prefix match)
or exactly equals a critical-process table entry. -/
theorem is_system_iff_service_or_critical (r : RawProcess) :
    (mkProcessInfo r).is_system = true ↔
      ((∃ s ∈ system_services, strStartsWith r.name s = true) ∨
        r.name ∈ critical_processes) := by
  simp [mkProcessInfo, is_system_service, is_critical_process, List.any_eq_true]

/-- Claim C2 (amended): every OS rejection of a termination signal surfaces
from kill_process and force_kill_process as SignalFailed carrying the OS
error text, never as Ok; no rejection is reported as PermissionDenied or
NotFound because the code maps every rejection uniformly. -/
theorem kill_rejection_surfaces_as_error (m : ProcessManager) (os : OsSignal)
    (pid : Nat) (e : String) :
    (os (u32_as_i32 pid) Signal.SIGTERM = Except.error e →
      kill_process m os pid = Except.error (ProcessError.SignalFailed e) ∧
      kill_process m os pid ≠ Except.ok ()) ∧
    (os (u32_as_i32 pid) Signal.SIGKILL = Except.error e →
      force_kill_process m os pid = Except.error (ProcessError.SignalFailed e) ∧
      force_kill_process m os pid ≠ Except.ok ()) := by
  constructor
  · intro h
    unfold kill_process
    rw [h]
    exact ⟨rfl, by simp⟩
  · intro h
    unfold force_kill_process
    rw [h]
    exact ⟨rfl, by simp⟩

/-- Witness for C2 (amended): a concrete rejected SIGTERM surfaces as
SignalFailed with the OS text. -/
theorem kill_rejection_surfaces_as_error_witness :
    kill_process mgr0 osEperm 7 =
      Except.error (ProcessError.SignalFailed "EPERM: Operation not permitted") :=
  ((kill_rejection_surfaces_as_error mgr0 osEperm 7
      "EPERM: Operation not permitted").1 rfl).1

/-- Counterexample for C2 as stated: a rejection due to insufficient
privilege (EPERM) is surfaced as SignalFailed, not as the PermissionDenied
kind the claim names. -/
theorem kill_eperm_is_not_permission_denied :
    kill_process mgr0 osEperm 1234 =
      Except.error (ProcessError.SignalFailed "EPERM: Operation not permitted") ∧
    kill_process mgr0 osEperm 1234 ≠ Except.error ProcessError.PermissionDenied := by
  constructor
  · rfl
  · intro h
    exact ProcessError.noConfusion (Except.error.inj h)

/-- Claim C3: the kill paths never re-check the protection policy: their
result is invariant under any change of manager state and of OS layer that
keeps the signal-delivery outcome, and when the OS accepts they answer Ok
even while exhibiting a name the critical-process classifier flags. -/
theorem kill_paths_no_policy_recheck (m m' : ProcessManager) (os os' : OsSignal)
    (pid : Nat) (name : String) (hcrit : is_critical_process name = true) :
    (os (u32_as_i32 pid) Signal.SIGTERM = os' (u32_as_i32 pid) Signal.SIGTERM →
      kill_process m os pid = kill_process m' os' pid) ∧
    (os (u32_as_i32 pid) Signal.SIGKILL = os' (u32_as_i32 pid) Signal.SIGKILL →
      force_kill_process m os pid = force_kill_process m' os' pid) ∧
    (os (u32_as_i32 pid) Signal.SIGTERM = Except.ok () →
      kill_process m os pid = Except.ok ()) ∧
    (os (u32_as_i32 pid) Signal.SIGKILL = Except.ok () →
      force_kill_process m os pid = Except.ok ()) := by
  refine ⟨?_, ?_, ?_, ?_⟩
  · intro h
    unfold kill_process
    rw [h]
  · intro h
    unfold force_kill_process
    rw [h]
  · intro h
    unfold kill_process
    rw [h]
  · intro h
    unfold force_kill_process
    rw [h]

/-- Witness for C3: with an accepting OS layer a kill of a pid whose process
is named "init" (a critical name) still succeeds. -/
theorem kill_paths_no_policy_recheck_witness :
    kill_process mgr0 osAccept 1 = Except.ok () :=
  (kill_paths_no_policy_recheck mgr0 { system := tblEx } osAccept osAccept 1
      "init" (by decide)).2.2.1 rfl

/-- Claim C4: the non-forceful path hands the OS layer the SIGTERM kind and
the forceful path the SIGKILL kind: any pid-insensitive test double observes
exactly that signal kind per call, the two kinds are distinguishable, and the
recording double osProbe observes them explicitly. -/
theorem kill_signal_kinds (m : ProcessManager) (pid : Nat)
    (f : Signal → Except String Unit) (e : String) :
    (f Signal.SIGTERM = Except.error e →
      kill_process m (fun _ s => f s) pid =
        Except.error (ProcessError.SignalFailed e)) ∧
    (f Signal.SIGKILL = Except.error e →
      force_kill_process m (fun _ s => f s) pid =
        Except.error (ProcessError.SignalFailed e)) ∧
    Signal.SIGTERM ≠ Signal.SIGKILL ∧
    kill_process m osProbe pid = Except.error (ProcessError.SignalFailed "SIGTERM") ∧
    force_kill_process m osProbe pid =
      Except.error (ProcessError.SignalFailed "SIGKILL") := by
  refine ⟨?_, ?_, by simp, rfl, rfl⟩
  · intro h
    unfold kill_process
    simp only []
    rw [h]
  · intro h
    unfold force_kill_process
    simp only []
    rw [h]

/-- Witness for C4: a test double that rejects SIGTERM with a marker text is
observed by the non-forceful path. -/
theorem kill_signal_kinds_witness :
    kill_process mgr0 (fun _ s =>
        Except.error (match s with
          | Signal.SIGTERM => "graceful"
          | Signal.SIGKILL => "forceful")) 3 =
      Except.error (ProcessError.SignalFailed "graceful") :=
  (kill_signal_kinds mgr0 3 (fun s =>
      Except.error (match s with
        | Signal.SIGTERM => "graceful"
        | Signal.SIGKILL => "forceful")) "graceful").1 rfl

/-- Claim C9: the cast (pid as i32) hands the OS layer the caller's pid
exactly when pid fits in 31 bits; for every u32 pid at or above 2^31 the
value handed over is the negative two's-complement reinterpretation
pid - 2^32, so the signal is not addressed to the caller's identifier, as an
OS layer rejecting negative raw pids observes. -/
theorem pid_cast_truncation (pid : Nat) (h32 : pid < 2 ^ 32) :
    (u32_as_i32 pid = (pid : Int) ↔ pid < 2 ^ 31) ∧
    (2 ^ 31 ≤ pid →
      u32_as_i32 pid = (pid : Int) - 2 ^ 32 ∧
      u32_as_i32 pid < 0 ∧
      u32_as_i32 pid ≠ (pid : Int) ∧
      ∀ m : ProcessManager,
        kill_process m osNonneg pid =
          Except.error (ProcessError.SignalFailed "negative pid")) := by
  constructor
  · unfold u32_as_i32
    split_ifs with h
    · constructor
      · intro _
        exact h
      · intro _
        rfl
    · constructor
      · intro he
        omega
      · intro hlt
        exact absurd hlt h
  · intro h
    have hn : ¬ pid < 2 ^ 31 := not_lt.mpr h
    have heq : u32_as_i32 pid = (pid : Int) - 2 ^ 32 := by
      unfold u32_as_i32
      rw [if_neg hn]
    have hneg : u32_as_i32 pid < 0 := by
      rw [heq]
      omega
    refine ⟨heq, hneg, by rw [heq]; omega, ?_⟩
    intro m
    unfold kill_process osNonneg
    rw [if_pos hneg]

/-- Witness for C9: the boundary pid 2^31 is handed over as the negative
value -2^31 and an OS layer rejecting negative raw pids rejects the call. -/
theorem pid_cast_truncation_witness :
    kill_process mgr0 osNonneg (2 ^ 31) =
      Except.error (ProcessError.SignalFailed "negative pid") :=
  ((pid_cast_truncation (2 ^ 31) (by norm_num)).2 (by norm_num)).2.2.2 mgr0

/-! Key-projection comparators are total and transitive below gt. -/

theorem cmpo_key_total {α β : Type} [LinearOrder β] (f : α → β) (a b : α) :
    (some (cmpo (f a) (f b)) : Option Ordering) = some Ordering.gt →
    (some (cmpo (f b) (f a)) : Option Ordering) ≠ some Ordering.gt := by
  intro h hb
  rw [Option.some_inj] at h hb
  exact absurd ((cmpo_eq_gt (f b) (f a)).mp hb)
    (not_lt.mpr ((cmpo_eq_gt (f a) (f b)).mp h).le)

theorem cmpo_key_trans {α β : Type} [LinearOrder β] (f : α → β) (a b c : α) :
    (some (cmpo (f a) (f b)) : Option Ordering) ≠ some Ordering.gt →
    (some (cmpo (f b) (f c)) : Option Ordering) ≠ some Ordering.gt →
    (some (cmpo (f a) (f c)) : Option Ordering) ≠ some Ordering.gt := by
  intro h1 h2 hc
  rw [Option.some_inj] at hc
  have l1 : f a ≤ f b := (cmpo_ne_gt (f a) (f b)).mp (fun hg => h1 (congrArg some hg))
  have l2 : f b ≤ f c := (cmpo_ne_gt (f b) (f c)).mp (fun hg => h2 (congrArg some hg))
  exact absurd ((cmpo_eq_gt (f a) (f c)).mp hc) (not_lt.mpr (l1.trans l2))

/-- Claim C6: sorting by CPU is total exactly on NaN-free snapshots: for
every table whose CPU readings are all comparable the comparator unwrap
never fires and the call returns a list, while on a table carrying a NaN
reading the unwrap of partial_cmp fires (modelled as none). -/
theorem get_processes_cpu_total_iff_no_nan :
    (∀ (m : ProcessManager) (tbl : List RawProcess) (low : ToLowercase),
        (∀ r ∈ tbl, r.cpu_usage ≠ F32.nan) →
        (get_processes m tbl low SortBy.Cpu).isSome) ∧
    ∀ low : ToLowercase, get_processes mgr0 nanTbl low SortBy.Cpu = none := by
  constructor
  · intro m tbl low hnn
    unfold get_processes refresh
    apply sortByM_isSome
    intro a ha b hb
    have hna : a.cpu_usage ≠ F32.nan := by
      rcases List.mem_map.mp ha with ⟨ra, hra, hmk⟩
      rw [← hmk]
      exact hnn ra hra
    have hnb : b.cpu_usage ≠ F32.nan := by
      rcases List.mem_map.mp hb with ⟨rb, hrb, hmk⟩
      rw [← hmk]
      exact hnn rb hrb
    unfold sortComparator
    cases hca : a.cpu_usage with
    | nan => exact absurd hca hna
    | val x =>
      cases hcb : b.cpu_usage with
      | nan => exact absurd hcb hnb
      | val y => simp [F32.partialCmp, hca, hcb]
  · intro low
    rfl

/-- Witness for C6: on a NaN-free table the CPU sort returns. -/
theorem get_processes_cpu_total_iff_no_nan_witness :
    (get_processes mgr0 tblEx asciiToLower SortBy.Cpu).isSome :=
  get_processes_cpu_total_iff_no_nan.1 mgr0 tblEx asciiToLower (by decide)

/-- Claim C7: under the snapshot invariant that the OS process table keys
pids uniquely, sorting by PID yields a strictly ascending pid sequence. -/
theorem get_processes_pid_strictly_ascending (m : ProcessManager)
    (tbl : List RawProcess) (low : ToLowercase) (l : List ProcessInfo)
    (hnd : (tbl.map RawProcess.pid).Nodup)
    (h : get_processes m tbl low SortBy.Pid = some l) :
    l.Pairwise (fun a b => a.pid < b.pid) := by
  unfold get_processes refresh at h
  have hpw := sortByM_pairwise (sortComparator low SortBy.Pid)
      (fun a b => cmpo_key_total ProcessInfo.pid a b)
      (fun a b c => cmpo_key_trans ProcessInfo.pid a b c)
      (tbl.map mkProcessInfo) l h
  have hle : l.Pairwise (fun a b => a.pid ≤ b.pid) :=
    hpw.imp (fun hab => (cmpo_ne_gt _ _).mp (fun hg => hab (congrArg some hg)))
  have hperm := sortByM_perm (sortComparator low SortBy.Pid) (tbl.map mkProcessInfo) l h
  have hmap : (tbl.map mkProcessInfo).map ProcessInfo.pid = tbl.map RawProcess.pid := by
    rw [List.map_map]
    rfl
  have hnd2 : (l.map ProcessInfo.pid).Nodup := by
    have hpm := hperm.map ProcessInfo.pid
    rw [hmap] at hpm
    exact hpm.symm.nodup hnd
  have hne : l.Pairwise (fun a b => a.pid ≠ b.pid) := List.pairwise_map.mp hnd2
  exact List.Pairwise.imp (fun hab => lt_of_le_of_ne hab.1 hab.2) (hle.and hne)

/-- Witness for C7: the concrete table is returned in strictly ascending pid
order. -/
theorem get_processes_pid_strictly_ascending_witness :
    List.Pairwise (fun a b => a.pid < b.pid)
      [mkProcessInfo
        { pid := 4, name := "delta", cpu_usage := F32.val 2, memory := 9, status := "Run" },
       mkProcessInfo
        { pid := 17, name := "Beta", cpu_usage := F32.val 3, memory := 2, status := "Run" },
       mkProcessInfo
        { pid := 30, name := "Zeta", cpu_usage := F32.val 1, memory := 5, status := "Run" }] :=
  get_processes_pid_strictly_ascending mgr0 tblEx asciiToLower _ (by decide) (by decide)

/-- Claim C8: for every lowercasing function, in particular the Unicode
mapping of String::to_lowercase, sorting by name orders the records
ascending under that case-folded lexicographic comparison of the name
field. -/
theorem get_processes_name_case_insensitive_sorted (low : ToLowercase)
    (m : ProcessManager) (tbl : List RawProcess) (l : List ProcessInfo)
    (h : get_processes m tbl low SortBy.Name = some l) :
    l.Pairwise (fun a b => (low a.name).data ≤ (low b.name).data) := by
  unfold get_processes refresh at h
  have hpw := sortByM_pairwise (sortComparator low SortBy.Name)
      (fun a b => cmpo_key_total (fun (p : ProcessInfo) => (low p.name).data) a b)
      (fun a b c => cmpo_key_trans (fun (p : ProcessInfo) => (low p.name).data) a b c)
      (tbl.map mkProcessInfo) l h
  exact hpw.imp (fun hab => (cmpo_ne_gt _ _).mp (fun hg => hab (congrArg some hg)))

/-- Witness for C8: under the ASCII fragment of the mapping (which agrees
with the full Unicode mapping on these names) the mixed-case names come back
in case-folded order Beta, delta, Zeta (a case-sensitive comparison would
place Zeta before delta). -/
theorem get_processes_name_case_insensitive_sorted_witness :
    List.Pairwise (fun a b =>
        (asciiToLower a.name).data ≤ (asciiToLower b.name).data)
      [mkProcessInfo
        { pid := 17, name := "Beta", cpu_usage := F32.val 3, memory := 2, status := "Run" },
       mkProcessInfo
        { pid := 4, name := "delta", cpu_usage := F32.val 2, memory := 9, status := "Run" },
       mkProcessInfo
        { pid := 30, name := "Zeta", cpu_usage := F32.val 1, memory := 5, status := "Run" }] :=
  get_processes_name_case_insensitive_sorted asciiToLower mgr0 tblEx _ (by decide)
